import Mathlib

/-!
Verification of the `calculator/__main__.py` CLI glue of the mathbot
expression-language toolchain.

Python strings are modelled as `List Char`, character offsets as `Nat`.
The surrounding modules (`calculator.parser`, `calculator.bytecode`,
`calculator.runtime`, `calculator.interpereter`, `calculator.errors`) are
not part of the sources under verification; their behaviour is modelled
abstractly as oracle parameters, following the specification's contracts
for each collaborator (fault taxonomy, run outcomes, prepare/extend).
-/

/-- Python's `str.split('\n')`: cut a string at every newline, keeping
empty pieces; the empty string splits to one empty piece. `consHead`
prepends a character to the first piece. -/
def consHead (c : Char) : List (List Char) → List (List Char)
  | [] => [[c]]
  | l :: ls => (c :: l) :: ls

def splitNl : List Char → List (List Char)
  | [] => [[]]
  | c :: rest => if c = '\n' then [] :: splitNl rest else consHead c (splitNl rest)

/-- Number of newline characters in a string (specification-side helper:
used to state what "the line containing an offset" means). -/
def countNl : List Char → Nat
  | [] => 0
  | c :: rest => (if c = '\n' then 1 else 0) + countNl rest

/-- Column tracker: scan characters, resetting the column to 0 after each
newline and advancing it otherwise (specification-side helper). -/
def colStep : Nat → List Char → Nat
  | col, [] => col
  | col, c :: rest => colStep (if c = '\n' then 0 else col + 1) rest

/-- Specification-side: 1-based number of the line containing offset `p`. -/
def lineOf (s : List Char) (p : Nat) : Nat := 1 + countNl (s.take p)

/-- Specification-side: column of offset `p` within its line (characters
since the last newline before `p`). -/
def colOf (s : List Char) (p : Nat) : Nat := colStep 0 (s.take p)

/-- The `while` loop of `format_error_place` (lines 68-71 of
`__main__.py`): walk the real lines of the source, starting at line
number `line`, consuming `len(line)+1` characters per line, and stop when
the remaining position fits in the current line or the current line is
the last one. Python's guard `line < len(lines) - 2` is the singleton
case; `position > len(lines[line])` is the `l.length < pos` test. -/
def findPlace : List (List Char) → Nat → Nat → Nat × Nat
  | [], line, pos => (line, pos)
  | [_], line, pos => (line, pos)
  | l :: l2 :: ls, line, pos =>
    if l.length < pos then findPlace (l2 :: ls) (line + 1) (pos - (l.length + 1))
    else (line, pos)

/-- The `ERROR_TEMPLATE` of `__main__.py` (lines 16-22), filled in: the
header with line number and position, then the previous line, the
offending line, the caret line, and the following line. -/
def ERROR_TEMPLATE (line_num position : Nat) (prev cur carat next : List Char) :
    List Char :=
  "On line ".toList ++ (Nat.repr line_num).toList
    ++ " at position ".toList ++ (Nat.repr position).toList
    ++ '\n' :: prev ++ '\n' :: cur ++ '\n' :: carat ++ '\n' :: next ++ ['\n']

/-- `format_error_place(string, position)` (lines 66-79): split the source
into lines padded with an empty line on each side, locate the line/column
of the offset with the `while` loop, and fill `ERROR_TEMPLATE`. The
Python direct indexing `lines[line-1]`, `lines[line]`, `lines[line+1]` is
rendered with `getD` (the computed line number always makes them
in-range). -/
def format_error_place (s : List Char) (position : Nat) : List Char :=
  let ls := splitNl s
  let lines := ([] : List Char) :: (ls ++ [[]])
  let lp := findPlace ls 1 position
  ERROR_TEMPLATE lp.1 lp.2
    (lines.getD (lp.1 - 1) [])
    (lines.getD lp.1 [])
    (List.replicate lp.2 ' ' ++ ['^'])
    (lines.getD (lp.1 + 1) [])

/-- `print_token_parse_caret(to)` (lines 61-63): the token sequence joined
by spaces, and a caret under the rightmost parse point. This function is
defined in the source but never called. -/
def print_token_parse_caret (tokens : List (List Char)) (rightmost : Nat) :
    List (List Char) :=
  [(tokens.intersperse " ".toList).flatten,
   List.replicate (((tokens.take rightmost).map List.length).sum + rightmost) ' '
     ++ ['^']]

/-- `proc_filename(filename)` (lines 82-85): a name starting with `'+'`
maps to the bundled-scripts path with extension `.c5`; any other
non-empty name is returned unchanged. Indexing `filename[0]` raises
`IndexError` on the empty string, modelled as `none`. -/
def proc_filename : List Char → Option (List Char)
  | [] => none
  | c :: rest =>
    if c = '+' then some ("./calculator/scripts/".toList ++ rest ++ ".c5".toList)
    else some (c :: rest)

/-- Python's left-aligned fixed-width `str.format` padding used by the
`:cache` listing. -/
def padRight (s : List Char) (n : Nat) : List Char :=
  s ++ List.replicate (n - s.length) ' '

/-! ### Structure lemmas about line splitting -/

theorem splitNl_ne_nil (s : List Char) : splitNl s ≠ [] := by
  cases s with
  | nil => simp [splitNl]
  | cons c rest =>
    simp only [splitNl]
    split
    · simp
    · cases h : splitNl rest <;> simp [consHead]

theorem splitNl_noNl (s : List Char) (h : ∀ c ∈ s, c ≠ '\n') : splitNl s = [s] := by
  induction s with
  | nil => rfl
  | cons c rest ih =>
    have hc : c ≠ '\n' := h c (by simp)
    have hr : splitNl rest = [rest] := ih (fun x hx => h x (by simp [hx]))
    simp [splitNl, hc, hr, consHead]

theorem splitNl_append (l rest : List Char) (hl : ∀ c ∈ l, c ≠ '\n') :
    splitNl (l ++ '\n' :: rest) = l :: splitNl rest := by
  induction l with
  | nil => simp [splitNl]
  | cons c t ih =>
    have hc : c ≠ '\n' := hl c (by simp)
    have ht := ih (fun x hx => hl x (by simp [hx]))
    simp [splitNl, hc, ht, consHead]

theorem newline_decomp (s : List Char) :
    (∀ c ∈ s, c ≠ '\n') ∨
      ∃ l rest, s = l ++ '\n' :: rest ∧ ∀ c ∈ l, c ≠ '\n' := by
  induction s with
  | nil => left; simp
  | cons c t ih =>
    by_cases hc : c = '\n'
    · right; exact ⟨[], t, by simp [hc], by simp⟩
    · rcases ih with h | ⟨l, rest, heq, hl⟩
      · left
        intro x hx
        rcases List.mem_cons.mp hx with rfl | hx2
        · exact hc
        · exact h x hx2
      · right
        refine ⟨c :: l, rest, by simp [heq], ?_⟩
        intro x hx
        rcases List.mem_cons.mp hx with rfl | hx2
        · exact hc
        · exact hl x hx2

/-! ### Counting and column lemmas -/

theorem countNl_append (l₁ l₂ : List Char) :
    countNl (l₁ ++ l₂) = countNl l₁ + countNl l₂ := by
  induction l₁ with
  | nil => simp [countNl]
  | cons c t ih => simp [countNl, ih, Nat.add_assoc]

theorem countNl_eq_zero (l : List Char) (h : ∀ c ∈ l, c ≠ '\n') : countNl l = 0 := by
  induction l with
  | nil => rfl
  | cons c t ih =>
    simp [countNl, h c (by simp), ih (fun x hx => h x (by simp [hx]))]

theorem colStep_append (a : Nat) (l₁ l₂ : List Char) :
    colStep a (l₁ ++ l₂) = colStep (colStep a l₁) l₂ := by
  induction l₁ generalizing a with
  | nil => rfl
  | cons c t ih => simp [colStep, ih]

theorem colStep_noNl (a : Nat) (l : List Char) (h : ∀ c ∈ l, c ≠ '\n') :
    colStep a l = a + l.length := by
  induction l generalizing a with
  | nil => simp [colStep]
  | cons c t ih =>
    have hc : c ≠ '\n' := h c (by simp)
    show colStep (if c = '\n' then 0 else a + 1) t = a + (c :: t).length
    rw [if_neg hc, ih (a + 1) (fun x hx => h x (by simp [hx]))]
    simp [Nat.add_comm, Nat.add_assoc, Nat.add_left_comm]

theorem take_noNl (l : List Char) (p : Nat) (h : ∀ c ∈ l, c ≠ '\n') :
    ∀ c ∈ l.take p, c ≠ '\n' :=
  fun c hc => h c (List.take_subset _ _ hc)

theorem take_append_left {α : Type} (l₁ l₂ : List α) (n : Nat) (h : n ≤ l₁.length) :
    (l₁ ++ l₂).take n = l₁.take n := by
  induction l₁ generalizing n with
  | nil =>
    have : n = 0 := by simpa using h
    simp [this]
  | cons c t ih =>
    cases n with
    | zero => simp
    | succ m =>
      simp only [List.cons_append, List.take_succ_cons]
      rw [ih m (by simpa using h)]

theorem take_append_right {α : Type} (l₁ l₂ : List α) (n : Nat) :
    (l₁ ++ l₂).take (l₁.length + n) = l₁ ++ l₂.take n := by
  induction l₁ with
  | nil => simp
  | cons c t ih =>
    simp only [List.cons_append, List.length_cons]
    rw [show t.length + 1 + n = (t.length + n) + 1 from by omega]
    rw [List.take_succ_cons, ih]

/-! ### getD helpers -/

theorem getD_append_default {α : Type} (l : List α) (d : α) (k : Nat) :
    (l ++ [d]).getD k d = l.getD k d := by
  induction l generalizing k with
  | nil => cases k <;> simp [List.getD]
  | cons c t ih =>
    cases k with
    | zero => simp [List.getD_cons_zero]
    | succ m =>
      simp only [List.cons_append, List.getD_cons_succ]
      exact ih m

theorem getD_ge {α : Type} (l : List α) (d : α) (k : Nat) (h : l.length ≤ k) :
    l.getD k d = d := by
  induction l generalizing k with
  | nil => cases k <;> simp [List.getD]
  | cons c t ih =>
    cases k with
    | zero => simp at h
    | succ m =>
      rw [List.getD_cons_succ]
      exact ih m (by simpa using h)

theorem padded_getD (ls : List (List Char)) (k : Nat) :
    ((([] : List Char) :: (ls ++ [[]]))).getD (k + 1) [] = ls.getD k [] := by
  rw [List.getD_cons_succ, getD_append_default]

/-! ### Characterisation of the while loop of format_error_place -/

theorem findPlace_single (l : List Char) (line pos : Nat) :
    findPlace [l] line pos = (line, pos) := rfl

theorem findPlace_cons₂ (l l2 : List Char) (ls : List (List Char)) (line pos : Nat) :
    findPlace (l :: l2 :: ls) line pos =
      if l.length < pos then findPlace (l2 :: ls) (line + 1) (pos - (l.length + 1))
      else (line, pos) := rfl

/-- For an offset inside the source, the loop lands on the line that
contains the offset (1-based, counted by the newlines before it) with the
residual position being the column inside that line. -/
theorem findPlace_within :
    ∀ (n : Nat) (s : List Char), s.length ≤ n → ∀ (line p : Nat), p ≤ s.length →
      findPlace (splitNl s) line p = (line + countNl (s.take p), colOf s p) := by
  intro n
  induction n with
  | zero =>
    intro s hs line p hp
    have hnil : s = [] := List.length_eq_zero.mp (Nat.le_zero.mp hs)
    subst hnil
    have hp0 : p = 0 := Nat.le_zero.mp (by simpa using hp)
    subst hp0
    simp [splitNl, findPlace, countNl, colOf, colStep]
  | succ n ih =>
    intro s hs line p hp
    rcases newline_decomp s with hno | ⟨l, rest, rfl, hl⟩
    · rw [splitNl_noNl s hno, findPlace_single]
      have h0 : countNl (s.take p) = 0 := countNl_eq_zero _ (take_noNl s p hno)
      have hcol : colOf s p = p := by
        rw [colOf, colStep_noNl 0 _ (take_noNl s p hno), List.length_take]
        omega
      rw [h0, hcol]
      simp
    · rw [splitNl_append l rest hl]
      obtain ⟨r, ls, hr⟩ := List.exists_cons_of_ne_nil (splitNl_ne_nil rest)
      have hslen : (l ++ '\n' :: rest).length = l.length + 1 + rest.length := by
        simp [List.length_append]
        omega
      rw [hr, findPlace_cons₂]
      by_cases hc : l.length < p
      · rw [if_pos hc, ← hr]
        have hrest : rest.length ≤ n := by omega
        have hq : p - (l.length + 1) ≤ rest.length := by omega
        rw [ih rest hrest (line + 1) (p - (l.length + 1)) hq]
        have htake : (l ++ '\n' :: rest).take p
            = (l ++ ['\n']) ++ rest.take (p - (l.length + 1)) := by
          rw [show l ++ '\n' :: rest = (l ++ ['\n']) ++ rest from by simp]
          rw [show p = (l ++ ['\n']).length + (p - (l.length + 1)) from by
            simp [List.length_append]; omega]
          rw [take_append_right]
          simp [List.length_append]
        have hcnt : countNl ((l ++ '\n' :: rest).take p)
            = 1 + countNl (rest.take (p - (l.length + 1))) := by
          rw [htake, countNl_append, countNl_append, countNl_eq_zero l hl]
          simp [countNl]
        have hcol : colOf (l ++ '\n' :: rest) p = colOf rest (p - (l.length + 1)) := by
          rw [colOf, htake, colStep_append, colStep_append,
            colStep_noNl 0 l hl]
          simp [colStep, colOf]
        rw [hcnt, hcol]
        simp only [Prod.mk.injEq]
        exact ⟨by omega, trivial⟩
      · rw [if_neg hc]
        have hple : p ≤ l.length := by omega
        have htake : (l ++ '\n' :: rest).take p = l.take p :=
          take_append_left l ('\n' :: rest) p hple
        have h0 : countNl ((l ++ '\n' :: rest).take p) = 0 := by
          rw [htake]; exact countNl_eq_zero _ (take_noNl l p hl)
        have hcol : colOf (l ++ '\n' :: rest) p = p := by
          rw [colOf, htake, colStep_noNl 0 _ (take_noNl l p hl), List.length_take]
          omega
        rw [h0, hcol]
        simp

/-- The last line of the split source (Python `lines[-2]`, i.e. the final
real line before the padding). -/
def lastLine (s : List Char) : List Char :=
  (splitNl s).getD ((splitNl s).length - 1) []

/-- For an offset at or past the end of the source, the loop stops on the
last line, and the residual position overshoots that line by exactly the
amount the offset overshoots the source. -/
theorem findPlace_beyond :
    ∀ (n : Nat) (s : List Char), s.length ≤ n → ∀ (line p : Nat), s.length ≤ p →
      findPlace (splitNl s) line p =
        (line + ((splitNl s).length - 1), (lastLine s).length + (p - s.length)) := by
  intro n
  induction n with
  | zero =>
    intro s hs line p hp
    have hnil : s = [] := List.length_eq_zero.mp (Nat.le_zero.mp hs)
    subst hnil
    simp [splitNl, findPlace, lastLine, List.getD]
  | succ n ih =>
    intro s hs line p hp
    rcases newline_decomp s with hno | ⟨l, rest, rfl, hl⟩
    · rw [splitNl_noNl s hno, findPlace_single]
      have hlast : lastLine s = s := by
        rw [lastLine, splitNl_noNl s hno]
        simp [List.getD_cons_zero]
      rw [hlast]
      simp only [List.length_cons, List.length_nil, Prod.mk.injEq]
      omega
    · have hslen : (l ++ '\n' :: rest).length = l.length + 1 + rest.length := by
        simp [List.length_append]
        omega
      rw [splitNl_append l rest hl]
      obtain ⟨r, ls, hr⟩ := List.exists_cons_of_ne_nil (splitNl_ne_nil rest)
      have hrlen : 1 ≤ (splitNl rest).length := by rw [hr]; simp
      have hlast : lastLine (l ++ '\n' :: rest) = lastLine rest := by
        rw [lastLine, lastLine, splitNl_append l rest hl, hr]
        rw [show (l :: r :: ls).length - 1 = ((r :: ls).length - 1) + 1 from by
          simp]
        rw [List.getD_cons_succ]
      have hc : l.length < p := by omega
      rw [hr, findPlace_cons₂, if_pos hc, ← hr]
      have hrest : rest.length ≤ n := by omega
      have hq : rest.length ≤ p - (l.length + 1) := by omega
      rw [ih rest hrest (line + 1) (p - (l.length + 1)) hq]
      rw [hlast]
      simp only [List.length_cons, hslen, Prod.mk.injEq]
      omega

/-! ### Padded-list indexing of the error window -/

theorem padded_prev (ls : List (List Char)) (c : Nat) :
    ((([] : List Char) :: (ls ++ [[]]))).getD (1 + c - 1) []
      = if c = 0 then [] else ls.getD (c - 1) [] := by
  rw [show 1 + c - 1 = c from by omega]
  cases c with
  | zero => simp [List.getD_cons_zero]
  | succ k =>
    rw [padded_getD, if_neg (Nat.succ_ne_zero k)]
    simp

theorem padded_cur (ls : List (List Char)) (c : Nat) :
    ((([] : List Char) :: (ls ++ [[]]))).getD (1 + c) [] = ls.getD c [] := by
  rw [show 1 + c = c + 1 from by omega, padded_getD]

theorem padded_next (ls : List (List Char)) (c : Nat) :
    ((([] : List Char) :: (ls ++ [[]]))).getD (1 + c + 1) [] = ls.getD (c + 1) [] := by
  rw [padded_getD, show 1 + c = c + 1 from by omega]

/-- C1: for every source string and every fault offset inside it,
`format_error_place` renders the fixed-format window: the 1-based line
number of the line containing the offset and the offset's column in it,
the predecessor line (empty above the first line), the offending line
(the one whose index is the number of newlines before the offset), a
caret aligned under the column, and the successor line. -/
theorem format_error_place_renders_window (s : List Char) (p : Nat)
    (hp : p < s.length) :
    format_error_place s p =
      ERROR_TEMPLATE (lineOf s p) (colOf s p)
        (if countNl (s.take p) = 0 then []
         else (splitNl s).getD (countNl (s.take p) - 1) [])
        ((splitNl s).getD (countNl (s.take p)) [])
        (List.replicate (colOf s p) ' ' ++ ['^'])
        ((splitNl s).getD (countNl (s.take p) + 1) []) := by
  have hfp := findPlace_within s.length s le_rfl 1 p (Nat.le_of_lt hp)
  simp only [format_error_place]
  rw [hfp]
  simp only []
  rw [padded_prev, padded_cur, padded_next]
  rfl

/-- Witness for C1 at the concrete source `"ab\ncd\nef"` and offset 4 (the
character `d` on the middle line). -/
theorem format_error_place_renders_window_witness :
    4 < ("ab\ncd\nef".toList).length ∧
    format_error_place ("ab\ncd\nef".toList) 4 =
      ERROR_TEMPLATE (lineOf ("ab\ncd\nef".toList) 4) (colOf ("ab\ncd\nef".toList) 4)
        (if countNl (("ab\ncd\nef".toList).take 4) = 0 then []
         else (splitNl ("ab\ncd\nef".toList)).getD
            (countNl (("ab\ncd\nef".toList).take 4) - 1) [])
        ((splitNl ("ab\ncd\nef".toList)).getD (countNl (("ab\ncd\nef".toList).take 4)) [])
        (List.replicate (colOf ("ab\ncd\nef".toList) 4) ' ' ++ ['^'])
        ((splitNl ("ab\ncd\nef".toList)).getD
            (countNl (("ab\ncd\nef".toList).take 4) + 1) []) :=
  ⟨by decide, format_error_place_renders_window ("ab\ncd\nef".toList) 4 (by decide)⟩

/-- C8: `format_error_place` is total — for any offset at or past the end
of the source it still produces the filled template, attributing the
offset to the last line (the line number is the total number of lines,
the displayed line is the last line, the successor line is empty), with
the caret column overshooting the line end by exactly the amount the
offset overshoots the source; in particular for an offset strictly
greater than the length the caret sits strictly past the line's end. -/
theorem format_error_place_total_beyond (s : List Char) (p : Nat)
    (hp : s.length ≤ p) :
    format_error_place s p =
      ERROR_TEMPLATE ((splitNl s).length) ((lastLine s).length + (p - s.length))
        (if (splitNl s).length = 1 then []
         else (splitNl s).getD ((splitNl s).length - 2) [])
        (lastLine s)
        (List.replicate ((lastLine s).length + (p - s.length)) ' ' ++ ['^'])
        []
      ∧ (s.length < p → (lastLine s).length < (lastLine s).length + (p - s.length)) := by
  have hL : 1 ≤ (splitNl s).length := List.length_pos.mpr (splitNl_ne_nil s)
  have hfp := findPlace_beyond s.length s le_rfl 1 p hp
  constructor
  · simp only [format_error_place]
    rw [hfp]
    simp only []
    rw [padded_prev, padded_cur, padded_next]
    rw [show 1 + ((splitNl s).length - 1) = (splitNl s).length from by omega]
    rw [show (splitNl s).length - 1 + 1 = (splitNl s).length from by omega]
    rw [getD_ge _ _ _ le_rfl]
    by_cases h1 : (splitNl s).length = 1
    · rw [if_pos (show (splitNl s).length - 1 = 0 from by omega), if_pos h1]
      rfl
    · rw [if_neg (show ¬(splitNl s).length - 1 = 0 from by omega), if_neg h1]
      rw [show (splitNl s).length - 1 - 1 = (splitNl s).length - 2 from by omega]
      rfl
  · intro hlt
    omega

/-- Witness for C8 at the concrete source `"ab\ncd"` (two lines) and
offset 9, four characters past the end. -/
theorem format_error_place_total_beyond_witness :
    ("ab\ncd".toList).length ≤ 9 ∧
    (format_error_place ("ab\ncd".toList) 9 =
      ERROR_TEMPLATE ((splitNl ("ab\ncd".toList)).length)
        ((lastLine ("ab\ncd".toList)).length + (9 - ("ab\ncd".toList).length))
        (if (splitNl ("ab\ncd".toList)).length = 1 then []
         else (splitNl ("ab\ncd".toList)).getD ((splitNl ("ab\ncd".toList)).length - 2) [])
        (lastLine ("ab\ncd".toList))
        (List.replicate
          ((lastLine ("ab\ncd".toList)).length + (9 - ("ab\ncd".toList).length)) ' '
          ++ ['^'])
        []
      ∧ (("ab\ncd".toList).length < 9 →
          (lastLine ("ab\ncd".toList)).length
            < (lastLine ("ab\ncd".toList)).length + (9 - ("ab\ncd".toList).length))) :=
  ⟨by decide, format_error_place_total_beyond ("ab\ncd".toList) 9 (by decide)⟩

/-- C9: `proc_filename` maps every `'+'`-prefixed name to the
bundled-scripts path with extension `.c5`, returns every other non-empty
name unchanged, and faults (unguarded index of the first character,
`IndexError`) on the empty name. -/
theorem proc_filename_behaviour :
    (∀ rest : List Char,
        proc_filename ('+' :: rest)
          = some ("./calculator/scripts/".toList ++ rest ++ ".c5".toList)) ∧
    (∀ (c : Char) (rest : List Char), c ≠ '+' →
        proc_filename (c :: rest) = some (c :: rest)) ∧
    proc_filename ([] : List Char) = none := by
  refine ⟨fun rest => ?_, fun c rest hc => ?_, rfl⟩
  · simp [proc_filename]
  · simp [proc_filename, hc]

/-- Witness for C9 on the ordinary filename `"script"`. -/
theorem proc_filename_behaviour_witness :
    ('s' ≠ '+') ∧ proc_filename ('s' :: "cript".toList) = some ('s' :: "cript".toList) :=
  ⟨by decide, proc_filename_behaviour.2.1 's' ("cript".toList) (by decide)⟩

/-! ### Model of the interactive terminal (lines 88-145)

The parser, compiler, runtime and interpreter live outside the verified
source; they are modelled as oracle parameters whose outcome alphabets
follow the specification: `parser.parse` returns tokens and a tree or
raises `ParseFailed` / `TokenizationFailed` with an offset;
`prepare_extra_code` extends the interpreter's program; `run_async`
(driven through `run_with_timeout`) returns an optional value, raises
an `EvaluationError` carrying an optional linking record, or raises some
other exception (including the driver's own timeout). -/

/-- Printable runtime value, abstracted to its printed representation. -/
abbrev Value := List Char

/-- Linking record of an evaluation fault (`e._linking`): originating
fragment name, its source text, and the offset of the fault in it. -/
structure Linking where
  name : List Char
  code : List Char
  position : Nat

/-- Syntax trees, abstract: parser results are opaque, and the terminal
wraps them in program / end-marker nodes exactly as lines 117-121 do. -/
inductive Ast where
  | raw : Nat → Ast
  | endMarker : Ast
  | program : List Ast → Ast

abbrev Tokens := List (List Char)

/-- Abstract internal state of one `Interpereter` object: the program and
bindings established so far, and the calling cache (its entries as
printable key/value pairs, in insertion order). -/
structure InnerState where
  progState : Nat
  cache : List (List Char × List Char)

/-- One `Interpereter` object: an identity (Python object identity), the
`trace` flag the terminal toggles, and the internal state the oracles
act on. -/
structure Interp where
  id : Nat
  trace : Bool
  inner : InnerState

/-- Mutable state of the `interactive_terminal` loop. -/
structure TermState where
  show_tree : Bool
  show_parsepoint : Bool
  interp : Interp
  line_count : Nat

/-- Outcome of `parser.parse` per the specification's fault taxonomy. -/
inductive ParseOutcome where
  | ok : Tokens → Ast → ParseOutcome
  | parseFailed : Nat → ParseOutcome
  | tokenizationFailed : Nat → ParseOutcome

/-- Outcome of driving `run_async` to completion: a value (possibly
`None`), an `EvaluationError` with optional linking record and message,
or any other exception (caught by the blanket handler, including the
driver's timeout); each outcome carries the interpreter state as the
mutated object leaves it. -/
inductive RunOutcome where
  | ok : InnerState → Option Value → RunOutcome
  | evalError : InnerState → Option Linking → List Char → RunOutcome
  | otherExc : InnerState → RunOutcome

abbrev ParseOracle := List Char → List Char → ParseOutcome

abbrev PrepareOracle := InnerState → Ast → InnerState

abbrev RunOracle := InnerState → RunOutcome

/-- Observable events of one loop iteration: plain prints, the tree dump,
and the calls the glue makes into the collaborators. -/
inductive OutEvent where
  | text : List Char → OutEvent
  | treeDump : Ast → OutEvent
  | calledParse : List Char → List Char → OutEvent
  | calledPrepare : Ast → OutEvent
  | waitFor : Option Nat → OutEvent
  | traceback : OutEvent

/-- `run_with_timeout(future, timeout)` (lines 55-58): wraps the pending
execution in `asyncio.wait_for` with the given deadline and drives it to
completion; the event records the deadline handed to `wait_for`. -/
def run_with_timeout (ro : RunOracle) (inner : InnerState) (timeout : Option Nat) :
    RunOutcome × OutEvent :=
  (ro inner, OutEvent.waitFor timeout)

/-- Source name `'iterm_' + str(line_count)` given to the parser. -/
def source_name_of (n : Nat) : List Char := "iterm_".toList ++ (Nat.repr n).toList

/-- The message printed when an evaluation fault has no linking record. -/
def noDebugMsg : List Char :=
  "No debugging information available for this error.".toList

/-- Lines 112-144: the non-command path of one loop iteration. Parse the
line; on success optionally dump the tree, wrap the tree in program and
end-marker nodes, append it via `prepare_extra_code`, drive `run_async`
under a 5-second deadline, and print a non-`None` result. Each `except`
clause of the source is one branch. -/
def handleSource (pa : ParseOracle) (po : PrepareOracle) (ro : RunOracle)
    (st : TermState) (line : List Char) : TermState × List OutEvent :=
  let name := source_name_of st.line_count
  match pa name line with
  | ParseOutcome.parseFailed p =>
      (st, [OutEvent.calledParse name line, OutEvent.text "Parse error".toList,
            OutEvent.text (format_error_place line p)])
  | ParseOutcome.tokenizationFailed p =>
      (st, [OutEvent.calledParse name line, OutEvent.text "Tokenization error".toList,
            OutEvent.text (format_error_place line p)])
  | ParseOutcome.ok _tokens ast =>
      let treeOut := if st.show_tree then [OutEvent.treeDump ast] else []
      let wrapped := Ast.program [Ast.program [ast, Ast.endMarker]]
      let inner1 := po st.interp.inner wrapped
      let rwt := run_with_timeout ro inner1 (some 5)
      let preEvents := OutEvent.calledParse name line :: treeOut
        ++ [OutEvent.calledPrepare wrapped, rwt.2]
      match rwt.1 with
      | RunOutcome.ok inner2 res =>
          ({ st with interp := { st.interp with inner := inner2 } },
           preEvents ++ (match res with
             | none => []
             | some v => [OutEvent.text v]))
      | RunOutcome.evalError inner2 lk msg =>
          ({ st with interp := { st.interp with inner := inner2 } },
           preEvents
             ++ (match lk with
                 | none => [OutEvent.text noDebugMsg]
                 | some dbg =>
                     [OutEvent.text ("Runtime error in ".toList ++ dbg.name),
                      OutEvent.text (format_error_place dbg.code dbg.position)])
             ++ [OutEvent.text msg, OutEvent.text (List.replicate msg.length '-')])
      | RunOutcome.otherExc inner2 =>
          ({ st with interp := { st.interp with inner := inner2 } },
           preEvents ++ [OutEvent.traceback])

/-- One iteration of the `while True` loop (lines 98-144): bump the line
counter, then dispatch on the input line; `none` models the `break` on an
empty line. -/
def stepLine (pa : ParseOracle) (po : PrepareOracle) (ro : RunOracle)
    (st0 : TermState) (line : List Char) : Option (TermState × List OutEvent) :=
  let st := { st0 with line_count := st0.line_count + 1 }
  if line = [] then none
  else if line = ":tree".toList then
    some ({ st with show_tree := !st.show_tree }, [])
  else if line = ":parsepoint".toList then
    some ({ st with show_parsepoint := !st.show_parsepoint }, [])
  else if line = ":trace".toList then
    some ({ st with interp := { st.interp with trace := !st.interp.trace } }, [])
  else if line = ":cache".toList then
    some (st, st.interp.inner.cache.map (fun kv =>
      OutEvent.text (padRight kv.1 40 ++ " : ".toList ++ padRight kv.2 20)))
  else some (handleSource pa po ro st line)

/-- The loop run over a list of input lines, collecting all events, until
an empty line terminates the session or the input runs out. -/
def runSession (pa : ParseOracle) (po : PrepareOracle) (ro : RunOracle) :
    TermState → List (List Char) → TermState × List OutEvent
  | st, [] => (st, [])
  | st, line :: rest =>
    match stepLine pa po ro st line with
    | none => ({ st with line_count := st.line_count + 1 }, [])
    | some (st', outs) =>
      let r := runSession pa po ro st' rest
      (r.1, outs ++ r.2)

/-- Session start (lines 88-96): display flags off, one fresh interpreter
(identity 0, trace off) whose initial inner state is the outcome of the
bootstrap `run()` of the runtime-only program. -/
def initState (inner0 : InnerState) : TermState :=
  { show_tree := false, show_parsepoint := false,
    interp := { id := 0, trace := false, inner := inner0 },
    line_count := 0 }

/-- Test oracle: parsing always succeeds with an opaque tree. -/
def paOk : ParseOracle := fun _ _ => ParseOutcome.ok [] (Ast.raw 0)

/-- Test oracle: `prepare_extra_code` leaves the abstract state unchanged. -/
def poId : PrepareOracle := fun i _ => i

/-- Test oracle: the run completes with the printed value `2`. -/
def roVal : RunOracle := fun i => RunOutcome.ok i (some "2".toList)

/-- Test inner state: empty program, empty calling cache. -/
def innerEmpty : InnerState := { progState := 0, cache := [] }

/-- Helper: a non-empty, non-command line goes down the source path. -/
theorem stepLine_source (pa : ParseOracle) (po : PrepareOracle) (ro : RunOracle)
    (st0 : TermState) (line : List Char)
    (h0 : line ≠ []) (h1 : line ≠ ":tree".toList) (h2 : line ≠ ":parsepoint".toList)
    (h3 : line ≠ ":trace".toList) (h4 : line ≠ ":cache".toList) :
    stepLine pa po ro st0 line
      = some (handleSource pa po ro
          { st0 with line_count := st0.line_count + 1 } line) := by
  simp only [stepLine]
  rw [if_neg h0, if_neg h1, if_neg h2, if_neg h3, if_neg h4]

/-- C3: when an evaluation fault caught in the interactive loop carries no
linking record, the loop prints exactly the no-debugging-information
message (and never a fragment name or an error window); when the record
is present, the loop prints the originating fragment's name and the
formatted error window at the recorded offset within the recorded source
text. -/
theorem eval_fault_rendering (pa : ParseOracle) (po : PrepareOracle) (ro : RunOracle)
    (st : TermState) (line : List Char) (toks : Tokens) (ast : Ast)
    (inner2 : InnerState) (lk : Option Linking) (msg : List Char)
    (h0 : line ≠ []) (h1 : line ≠ ":tree".toList) (h2 : line ≠ ":parsepoint".toList)
    (h3 : line ≠ ":trace".toList) (h4 : line ≠ ":cache".toList)
    (hpa : pa (source_name_of (st.line_count + 1)) line = ParseOutcome.ok toks ast)
    (hro : ro (po st.interp.inner (Ast.program [Ast.program [ast, Ast.endMarker]]))
        = RunOutcome.evalError inner2 lk msg) :
    stepLine pa po ro st line
      = some ({ st with line_count := st.line_count + 1,
                        interp := { st.interp with inner := inner2 } },
          OutEvent.calledParse (source_name_of (st.line_count + 1)) line
            :: (if st.show_tree then [OutEvent.treeDump ast] else [])
            ++ [OutEvent.calledPrepare (Ast.program [Ast.program [ast, Ast.endMarker]]),
                OutEvent.waitFor (some 5)]
            ++ (match lk with
                | none => [OutEvent.text noDebugMsg]
                | some dbg =>
                    [OutEvent.text ("Runtime error in ".toList ++ dbg.name),
                     OutEvent.text (format_error_place dbg.code dbg.position)])
            ++ [OutEvent.text msg, OutEvent.text (List.replicate msg.length '-')]) := by
  rw [stepLine_source pa po ro st line h0 h1 h2 h3 h4]
  simp only [handleSource, run_with_timeout, hpa, hro]
  cases lk <;> rfl

/-- Test oracle: the run raises an `EvaluationError` whose linking record
points into the fragment `iterm_1`. -/
def roErr : RunOracle := fun i =>
  RunOutcome.evalError i
    (some { name := "iterm_1".toList, code := "1/0".toList, position := 2 })
    "division by zero".toList

/-- Witness for C3: a run fault with a linking record prints the fragment
name and the error window, then the message and a dashed rule. -/
theorem eval_fault_rendering_witness :
    stepLine paOk poId roErr (initState innerEmpty) "x".toList
      = some ({ initState innerEmpty with
                  line_count := 1,
                  interp := { (initState innerEmpty).interp with inner := innerEmpty } },
          [OutEvent.calledParse (source_name_of 1) "x".toList,
           OutEvent.calledPrepare (Ast.program [Ast.program [Ast.raw 0, Ast.endMarker]]),
           OutEvent.waitFor (some 5),
           OutEvent.text ("Runtime error in ".toList ++ "iterm_1".toList),
           OutEvent.text (format_error_place "1/0".toList 2),
           OutEvent.text "division by zero".toList,
           OutEvent.text (List.replicate ("division by zero".toList).length '-')]) :=
  eval_fault_rendering paOk poId roErr (initState innerEmpty) "x".toList
    [] (Ast.raw 0) innerEmpty
    (some { name := "iterm_1".toList, code := "1/0".toList, position := 2 })
    "division by zero".toList
    (by decide) (by decide) (by decide) (by decide) (by decide) rfl rfl

/-- C4: whenever the processing of a non-empty, non-command interactive
line faults — a parse fault, a tokenization fault, an evaluation fault,
or any other exception — the fault is caught: the loop answers with an
iteration result (it does not terminate the session), something is
printed, and the interpreter object is the same instance as before. -/
theorem caught_fault_continues :
    ∀ (pa : ParseOracle) (po : PrepareOracle) (ro : RunOracle)
      (st : TermState) (line : List Char),
      line ≠ [] → line ≠ ":tree".toList → line ≠ ":parsepoint".toList →
      line ≠ ":trace".toList → line ≠ ":cache".toList →
      ((∃ p, pa (source_name_of (st.line_count + 1)) line
          = ParseOutcome.parseFailed p)
        ∨ (∃ p, pa (source_name_of (st.line_count + 1)) line
            = ParseOutcome.tokenizationFailed p)
        ∨ (∃ toks ast inner2 lk msg,
            pa (source_name_of (st.line_count + 1)) line = ParseOutcome.ok toks ast ∧
            ro (po st.interp.inner (Ast.program [Ast.program [ast, Ast.endMarker]]))
              = RunOutcome.evalError inner2 lk msg)
        ∨ (∃ toks ast inner2,
            pa (source_name_of (st.line_count + 1)) line = ParseOutcome.ok toks ast ∧
            ro (po st.interp.inner (Ast.program [Ast.program [ast, Ast.endMarker]]))
              = RunOutcome.otherExc inner2)) →
      ∃ st' outs, stepLine pa po ro st line = some (st', outs)
        ∧ st'.interp.id = st.interp.id
        ∧ outs ≠ [] := by
  intro pa po ro st line h0 h1 h2 h3 h4 hf
  rw [stepLine_source pa po ro st line h0 h1 h2 h3 h4]
  rcases hf with ⟨p, hp⟩ | ⟨p, hp⟩ |
    ⟨toks, ast, inner2, lk, msg, hpa, hro⟩ | ⟨toks, ast, inner2, hpa, hro⟩
  · simp only [handleSource, hp]
    exact ⟨_, _, rfl, rfl, by simp⟩
  · simp only [handleSource, hp]
    exact ⟨_, _, rfl, rfl, by simp⟩
  · simp only [handleSource, run_with_timeout, hpa, hro]
    exact ⟨_, _, rfl, rfl, by simp⟩
  · simp only [handleSource, run_with_timeout, hpa, hro]
    exact ⟨_, _, rfl, rfl, by simp⟩

/-- Test oracle: parsing always fails with a parse fault at offset 1. -/
def paFail : ParseOracle := fun _ _ => ParseOutcome.parseFailed 1

/-- Witness for C4 with a concrete parse fault. -/
theorem caught_fault_continues_witness :
    ∃ st' outs,
      stepLine paFail poId roVal (initState innerEmpty) "1+".toList = some (st', outs)
        ∧ st'.interp.id = (initState innerEmpty).interp.id
        ∧ outs ≠ [] :=
  caught_fault_continues paFail poId roVal (initState innerEmpty) "1+".toList
    (by decide) (by decide) (by decide) (by decide) (by decide)
    (Or.inl ⟨1, rfl⟩)

/-- C6: every non-empty, non-command interactive line follows the normal
path — parse, `prepare_extra_code` on the program/end-wrapped tree, then
`run_async` driven through `run_with_timeout`, which hands the fixed
5-second deadline to `asyncio.wait_for` — and when the run completes with
a non-`None` value that value is printed, while a `None` result prints
nothing. -/
theorem normal_path_fixed_deadline (pa : ParseOracle) (po : PrepareOracle)
    (ro : RunOracle) (st : TermState) (line : List Char) (toks : Tokens) (ast : Ast)
    (inner2 : InnerState) (res : Option Value)
    (h0 : line ≠ []) (h1 : line ≠ ":tree".toList) (h2 : line ≠ ":parsepoint".toList)
    (h3 : line ≠ ":trace".toList) (h4 : line ≠ ":cache".toList)
    (hpa : pa (source_name_of (st.line_count + 1)) line = ParseOutcome.ok toks ast)
    (hro : ro (po st.interp.inner (Ast.program [Ast.program [ast, Ast.endMarker]]))
        = RunOutcome.ok inner2 res) :
    stepLine pa po ro st line
      = some ({ st with line_count := st.line_count + 1,
                        interp := { st.interp with inner := inner2 } },
          OutEvent.calledParse (source_name_of (st.line_count + 1)) line
            :: (if st.show_tree then [OutEvent.treeDump ast] else [])
            ++ [OutEvent.calledPrepare (Ast.program [Ast.program [ast, Ast.endMarker]]),
                OutEvent.waitFor (some 5)]
            ++ (match res with
                | none => []
                | some v => [OutEvent.text v])) := by
  rw [stepLine_source pa po ro st line h0 h1 h2 h3 h4]
  simp only [handleSource, run_with_timeout, hpa, hro]
  cases res <;> rfl

/-- Witness for C6 on the line `1+1` with a run that returns `2`. -/
theorem normal_path_fixed_deadline_witness :
    stepLine paOk poId roVal (initState innerEmpty) "1+1".toList
      = some ({ initState innerEmpty with
                  line_count := 1,
                  interp := { (initState innerEmpty).interp with inner := innerEmpty } },
          [OutEvent.calledParse (source_name_of 1) "1+1".toList,
           OutEvent.calledPrepare (Ast.program [Ast.program [Ast.raw 0, Ast.endMarker]]),
           OutEvent.waitFor (some 5),
           OutEvent.text "2".toList]) :=
  normal_path_fixed_deadline paOk poId roVal (initState innerEmpty) "1+1".toList
    [] (Ast.raw 0) innerEmpty (some "2".toList)
    (by decide) (by decide) (by decide) (by decide) (by decide) rfl rfl

/-- C5 (refuting the displayed-visualization reading): in a session that
issues `:parsepoint` once — an odd number of times — and then enters a
source line, the flag `show_parsepoint` is set, yet the outputs for that
line are exactly the parse/prepare/run pipeline and the printed result:
no token-sequence/caret visualization (no output of
`print_token_parse_caret`) is ever produced. The command toggles a flag
that the loop never reads. -/
theorem parsepoint_visualization_never_shown :
    (runSession paOk poId roVal (initState innerEmpty)
        [":parsepoint".toList, "1+1".toList]).1.show_parsepoint = true
    ∧ (runSession paOk poId roVal (initState innerEmpty)
        [":parsepoint".toList, "1+1".toList]).2
      = [OutEvent.calledParse (source_name_of 2) "1+1".toList,
         OutEvent.calledPrepare (Ast.program [Ast.program [Ast.raw 0, Ast.endMarker]]),
         OutEvent.waitFor (some 5), OutEvent.text "2".toList] := by
  constructor <;> rfl

/-- C10: an empty interactive line terminates the session, and each of the
four control commands is handled without consulting the parser,
preparation, or run oracles (the result is the same for arbitrary
oracles, so the line is never parsed or executed): the commands only flip
their display/trace flags or list the cache, leaving the interpreter's
program state and calling cache untouched. -/
theorem command_lines_control_only :
    ∀ (pa : ParseOracle) (po : PrepareOracle) (ro : RunOracle) (st : TermState),
      stepLine pa po ro st [] = none
      ∧ stepLine pa po ro st ":tree".toList
          = some ({ st with
                      line_count := st.line_count + 1,
                      show_tree := !st.show_tree }, [])
      ∧ stepLine pa po ro st ":parsepoint".toList
          = some ({ st with
                      line_count := st.line_count + 1,
                      show_parsepoint := !st.show_parsepoint }, [])
      ∧ stepLine pa po ro st ":trace".toList
          = some ({ st with
                      line_count := st.line_count + 1,
                      interp := { st.interp with trace := !st.interp.trace } }, [])
      ∧ stepLine pa po ro st ":cache".toList
          = some ({ st with line_count := st.line_count + 1 },
              st.interp.inner.cache.map (fun kv =>
                OutEvent.text (padRight kv.1 40 ++ " : ".toList ++ padRight kv.2 20))) := by
  intro pa po ro st
  refine ⟨rfl, ?_, ?_, ?_, ?_⟩ <;> rfl

/-! ### Model of the file-execution mode (`main`, lines 25-43) -/

/-- Parsed command-line arguments (`parse_arguments`, lines 46-52): a
filename plus the mutually exclusive `--trace` / `--compile` flags. -/
structure Args where
  filename : List Char
  trace : Bool
  compile : Bool

/-- Observable events of a file-mode run. -/
inductive FileEvent where
  | printedDump : List Char → FileEvent
  | madeInterp : Bool → FileEvent
  | ran : FileEvent
  | printedResult : Value → FileEvent
  | printedParseError : List Char → FileEvent

/-- Outcome of `Interpereter(btc).run()` in file mode: a final value, or
an `EvaluationError` (which no handler in `main` catches). -/
inductive FileRunOutcome where
  | ok : Value → FileRunOutcome
  | evalError : FileRunOutcome

/-- Result of one `main()` file-mode invocation: a normal return together
with its printed events, or an exception escaping `main`, named by its
type. -/
inductive MainOutcome where
  | normal : List FileEvent → MainOutcome
  | unhandled : List Char → MainOutcome

/-- The file branch of `main()` (lines 29-43). `readF` models
`open(...).read()`; `pa code name` the single `parser.parse` call;
`dump exportable ast` the `btc.dump()` text of the runtime-wrapped
program; `runF trace ast` the interpreter run. The `try` block is guarded
by a single `except parser.ParseFailed` clause (line 42): a `ParseFailed`
fault is rendered through `format_error_place` over the file's code,
while `TokenizationFailed` — a distinct fault class per the
specification's taxonomy and per the separate `except` clauses of the
interactive loop — matches no handler and escapes `main`, as do an
`IndexError` from `proc_filename` on an empty filename and an
`EvaluationError` from `run()`. -/
def main_file (args : Args) (readF : List Char → List Char)
    (pa : List Char → List Char → ParseOutcome)
    (dump : Bool → Ast → List Char)
    (runF : Bool → Ast → FileRunOutcome) : MainOutcome :=
  match proc_filename args.filename with
  | none => MainOutcome.unhandled "IndexError".toList
  | some filename =>
    let code := readF filename
    match pa code filename with
    | ParseOutcome.tokenizationFailed _p =>
        MainOutcome.unhandled "TokenizationFailed".toList
    | ParseOutcome.parseFailed p =>
        MainOutcome.normal [FileEvent.printedParseError (format_error_place code p)]
    | ParseOutcome.ok _toks ast =>
      if args.compile then
        MainOutcome.normal [FileEvent.printedDump (dump true ast)]
      else
        match runF args.trace ast with
        | FileRunOutcome.ok v =>
            MainOutcome.normal
              [FileEvent.madeInterp args.trace, FileEvent.ran,
               FileEvent.printedResult v]
        | FileRunOutcome.evalError =>
            MainOutcome.unhandled "EvaluationError".toList

/-- C7: with the compile flag set, a file-mode run prints only the
compiled program's dump — the event list contains no interpreter
construction and no execution; with the flag clear and a successful run
it constructs the interpreter, runs, and prints the result; and no
file-mode run ever both dumps and runs. -/
theorem compile_only_never_executes :
    (∀ (args : Args) (readF : List Char → List Char)
       (pa : List Char → List Char → ParseOutcome)
       (dump : Bool → Ast → List Char) (runF : Bool → Ast → FileRunOutcome)
       (fn : List Char) (toks : Tokens) (ast : Ast),
       proc_filename args.filename = some fn →
       pa (readF fn) fn = ParseOutcome.ok toks ast →
       args.compile = true →
       main_file args readF pa dump runF
         = MainOutcome.normal [FileEvent.printedDump (dump true ast)]) ∧
    (∀ (args : Args) (readF : List Char → List Char)
       (pa : List Char → List Char → ParseOutcome)
       (dump : Bool → Ast → List Char) (runF : Bool → Ast → FileRunOutcome)
       (fn : List Char) (toks : Tokens) (ast : Ast) (v : Value),
       proc_filename args.filename = some fn →
       pa (readF fn) fn = ParseOutcome.ok toks ast →
       args.compile = false →
       runF args.trace ast = FileRunOutcome.ok v →
       main_file args readF pa dump runF
         = MainOutcome.normal
             [FileEvent.madeInterp args.trace, FileEvent.ran,
              FileEvent.printedResult v]) ∧
    (∀ (args : Args) (readF : List Char → List Char)
       (pa : List Char → List Char → ParseOutcome)
       (dump : Bool → Ast → List Char) (runF : Bool → Ast → FileRunOutcome)
       (evs : List FileEvent),
       main_file args readF pa dump runF = MainOutcome.normal evs →
       ¬ ((∃ d, FileEvent.printedDump d ∈ evs) ∧ FileEvent.ran ∈ evs)) := by
  refine ⟨?_, ?_, ?_⟩
  · intro args readF pa dump runF fn toks ast hfn hpa hc
    simp [main_file, hfn, hpa, hc]
  · intro args readF pa dump runF fn toks ast v hfn hpa hc hrun
    simp [main_file, hfn, hpa, hc, hrun]
  · intro args readF pa dump runF evs hev
    rcases hfn : proc_filename args.filename with _ | fn
    · simp [main_file, hfn] at hev
    · rcases hpa : pa (readF fn) fn with ⟨toks, ast⟩ | p | p
      · by_cases hc : args.compile
        · simp [main_file, hfn, hpa, hc] at hev
          subst hev
          rintro ⟨⟨d, hd⟩, hran⟩
          simp at hran
        · rcases hrun : runF args.trace ast with v | _
          · simp [main_file, hfn, hpa, hc, hrun] at hev
            subst hev
            rintro ⟨⟨d, hd⟩, hran⟩
            simp at hd
          · simp [main_file, hfn, hpa, hc, hrun] at hev
      · simp [main_file, hfn, hpa] at hev
        subst hev
        rintro ⟨⟨d, hd⟩, hran⟩
        simp at hran
      · simp [main_file, hfn, hpa] at hev

/-- Test arguments: plain run of file `f`. -/
def argsPlain : Args := { filename := "f".toList, trace := false, compile := false }

/-- Test arguments: compile-only run of file `f`. -/
def argsCompile : Args := { filename := "f".toList, trace := false, compile := true }

/-- Test oracle: every file reads as the text `1 +`. -/
def readConst : List Char → List Char := fun _ => "1 +".toList

/-- Test oracle: a constant bytecode dump text. -/
def dumpConst : Bool → Ast → List Char := fun _ _ => "DUMP".toList

/-- Test oracle: the file-mode run returns the value `4`. -/
def runFOk : Bool → Ast → FileRunOutcome := fun _ _ => FileRunOutcome.ok "4".toList

/-- Test oracle: tokenization always fails at offset 0. -/
def paTokFail : ParseOracle := fun _ _ => ParseOutcome.tokenizationFailed 0

/-- Witness for C7: a concrete compile-only run prints just the dump. -/
theorem compile_only_never_executes_witness :
    main_file argsCompile readConst paOk dumpConst runFOk
      = MainOutcome.normal [FileEvent.printedDump (dumpConst true (Ast.raw 0))] :=
  compile_only_never_executes.1 argsCompile readConst paOk dumpConst runFOk
    ("f".toList) [] (Ast.raw 0) rfl rfl rfl

/-- C2 counterexample: on a source file whose tokenization fails, `main`
does not report a rendered diagnostic — the `TokenizationFailed` fault
escapes `main` unhandled, because the only handler is
`except parser.ParseFailed`. -/
theorem tokenization_fault_escapes_main :
    main_file argsPlain readConst paTokFail dumpConst runFOk
      = MainOutcome.unhandled "TokenizationFailed".toList
    ∧ main_file argsPlain readConst paTokFail dumpConst runFOk
      ≠ MainOutcome.normal
          [FileEvent.printedParseError (format_error_place (readConst "f".toList) 0)] := by
  refine ⟨rfl, ?_⟩
  rw [show main_file argsPlain readConst paTokFail dumpConst runFOk
      = MainOutcome.unhandled "TokenizationFailed".toList from rfl]
  simp

/-- C2 as the code has it: a `ParseFailed` fault makes `main` report the
rendered diagnostic at the fault's offset over the file's code, but a
`TokenizationFailed` fault escapes `main` unhandled. -/
theorem parse_fault_reported_tokenization_escapes :
    (∀ (args : Args) (readF : List Char → List Char)
       (pa : List Char → List Char → ParseOutcome)
       (dump : Bool → Ast → List Char) (runF : Bool → Ast → FileRunOutcome)
       (fn : List Char) (p : Nat),
       proc_filename args.filename = some fn →
       pa (readF fn) fn = ParseOutcome.parseFailed p →
       main_file args readF pa dump runF
         = MainOutcome.normal
             [FileEvent.printedParseError (format_error_place (readF fn) p)]) ∧
    (∀ (args : Args) (readF : List Char → List Char)
       (pa : List Char → List Char → ParseOutcome)
       (dump : Bool → Ast → List Char) (runF : Bool → Ast → FileRunOutcome)
       (fn : List Char) (p : Nat),
       proc_filename args.filename = some fn →
       pa (readF fn) fn = ParseOutcome.tokenizationFailed p →
       main_file args readF pa dump runF
         = MainOutcome.unhandled "TokenizationFailed".toList) := by
  constructor <;>
    (intro args readF pa dump runF fn p hfn hpa; simp [main_file, hfn, hpa])

/-- Witness for the amended C2 at a concrete parse fault. -/
theorem parse_fault_reported_tokenization_escapes_witness :
    main_file argsPlain readConst paFail dumpConst runFOk
      = MainOutcome.normal
          [FileEvent.printedParseError (format_error_place (readConst "f".toList) 1)] :=
  parse_fault_reported_tokenization_escapes.1 argsPlain readConst paFail dumpConst
    runFOk ("f".toList) 1 rfl rfl
